import Mathlib

/-!
Shallow embedding of the upld.is pastebin (Go), two variants:
the disk-backed variant (diskv key-value store) and the IPFS-backed
variant (subprocess `ipfs add` / `ipfs cat`).

Bytes are modelled as `Nat`, payloads as `List Nat`.  Go strings are
byte strings; keys and filenames here are Lean `String`s (the code only
manipulates them as opaque sequences, so the char/byte distinction is
irrelevant to the properties proved).  The process-wide random source
`math/rand` is modelled as a stream `r : Nat → Nat` of draws;
`rand.Intn 62` becomes `r i % 62` (always `< 62`, as `Intn` guarantees).
The unbounded retry loop of `writePaste` in the disk variant is modelled
with fuel: a `none` result models the (probability-zero) case that the
loop never finds a free key within the given fuel, i.e. non-termination.
External subprocesses (ipfs, pygmentize) and the markdown renderer are
modelled as explicit function parameters.
-/

set_option autoImplicit false

namespace Upldis

/-- Configuration constants from the Go source (identical in both variants). -/
def minPasteSize : Nat := 16

/-- Maximum paste size: 1024 * 1024 * 1024 bytes. -/
def maxPasteSize : Nat := 1024 * 1024 * 1024

/-- Length of the random id part of a key. -/
def urlLength : Nat := 4

/-- The 62-character alphabet the random id draws from. -/
def urlCharset : String := "ABCDEFGHIJKLMNOPQRSTUVWXYZabcdefghijklmnopqrstuvwxyz0123456789"

/-- Error values of the Go code: pasteTooLarge, pasteTooSmall, pasteNotFound,
plus the generic subprocess / os.Remove failures of the IPFS variant
(which Go surfaces as plain `error` values, not one of the named types). -/
inductive PasteErr where
  | tooLarge
  | tooSmall
  | notFound
  | subFailed
  | removeFailed
  deriving DecidableEq, Repr

/-! ### Disk variant: diskv store model

A diskv store scoped to one namespace directory is a key → bytes map,
modelled as an association list with shadowing writes (lookup finds the
most recent binding). -/

def Store : Type := List (String × List Nat)

/-- Lookup of diskv: the most recent binding for the key. -/
def lookupStore (st : Store) (k : String) : Option (List Nat) :=
  (st.find? (fun p => p.1 == k)).map (fun p => p.2)

/-- Diskv Has: existence check. -/
def hasKey (st : Store) (k : String) : Bool :=
  (st.find? (fun p => p.1 == k)).isSome

/-- Diskv Write: unconditional overwrite. -/
def writeStore (st : Store) (k : String) (v : List Nat) : Store :=
  (k, v) :: st

/-- Diskv Erase: the key is removed from the store. -/
def eraseStore (st : Store) (k : String) : Store :=
  st.filter (fun p => ¬ p.1 = k)

/-! ### Extension extraction

The Go code computes the key suffix with `reg.FindString(name)` where
`reg = (\.[^.]+)$`: the leftmost position at which a dot is followed by
one or more characters, none of them a dot, reaching the end of the
string.  Such a match exists exactly at the last dot of the string when
that dot is not the final character. -/

/-- Leftmost suffix of the form `.[^.]+` that reaches the end of the list;
`[]` when there is none.  This is `FindString` of the regexp `(\.[^.]+)$`
on the char list. -/
def findExtFrom : List Char → List Char
  | [] => []
  | c :: rest =>
    if c == '.' && !rest.isEmpty && rest.all (fun d => d != '.') then c :: rest
    else findExtFrom rest

/-- The `reg.FindString name` of the Go source on strings. -/
def extSuffix (name : String) : String :=
  String.mk (findExtFrom name.data)

/-! ### ID generation

`newID` draws `urlLength` bytes, each `urlCharset[rand.Intn(62)]`.  The
n-th call to `newID` on the stream `r` consumes draws `4n .. 4n+3`. -/

/-- Character the Go code selects for one draw `x` of `rand.Intn 62`:
`urlCharset[x % 62]` (`Intn` returns a value `< 62`; the model realises
the draw as `x % 62`). -/
def charAt (x : Nat) : Char :=
  urlCharset.data.getD (x % 62) 'A'

/-- The id produced by the n-th `newID()` call on the random stream `r`. -/
def newIDAt (r : Nat → Nat) (n : Nat) : String :=
  String.mk ((List.range urlLength).map (fun i => charAt (r (urlLength * n + i))))

/-- The id produced by a single `newID()` call. -/
def newID (r : Nat → Nat) : String :=
  newIDAt r 0

/-! ### Disk variant: paste repository -/

/-- Go readPaste (disk variant): `h.Read key`; any error becomes
`pasteNotFound`; on success the raw bytes are returned (the `string(...)`
conversion in Go is byte-identity). -/
def readPaste (st : Store) (key : String) : Except PasteErr (List Nat) :=
  match lookupStore st key with
  | none => .error .notFound
  | some v => .ok v

/-- Go deletePaste: read first (any error becomes `pasteNotFound`, and
nothing is erased), then erase.  Returns the error outcome and the
resulting store. -/
def deletePaste (st : Store) (key : String) : Except PasteErr Unit × Store :=
  match lookupStore st key with
  | none => (.error .notFound, st)
  | some _ => (.ok (), eraseStore st key)

/-- Retry loop of writePaste in the disk variant: `key = newID() + name;
for h.Has(key) { key = newID() + name }`.  Attempt `n` uses the n-th id
of the stream; `fuel` bounds the number of attempts (a `none` models the
loop never returning). -/
def findFreeKey (r : Nat → Nat) (ext : String) (st : Store) : Nat → Nat → Option String
  | 0, _ => none
  | fuel + 1, n =>
    let k := newIDAt r n ++ ext
    if hasKey st k then findFreeKey r ext st fuel (n + 1) else some k

/-- Go writePaste (disk variant).  Size checks first (`len > max` then
`len < min`), no storage action in either failure case; then the key is
`newID() + reg.FindString(name)` retried until `Has` is false; then
`h.Write key data`.  The returned store is the (possibly updated) store;
`none` models non-termination of the retry loop. -/
def writePaste (r : Nat → Nat) (fuel : Nat) (st : Store) (name : String)
    (data : List Nat) : Option (Except PasteErr String × Store) :=
  if data.length > maxPasteSize then some (.error .tooLarge, st)
  else if data.length < minPasteSize then some (.error .tooSmall, st)
  else
    match findFreeKey r (extSuffix name) st fuel 0 with
    | none => none
    | some k => some (.ok k, writeStore st k data)

/-! ### Disk variant: GET handler (getCompost)

Response classification of the handler: the notFound branch is
http.Error 404 "not found", serverError the http.Error 500 branch,
and a page carries the Content-Type header set and the body written. -/

/-- Content-Type value the handlers set for HTML. -/
def htmlCT : String := "text/html; charset=utf-8"

/-- Content-Type value the handlers set for plain text. -/
def plainCT : String := "text/plain; charset=utf-8"

/-- Response of getCompost in the disk variant. -/
inductive DResp where
  | empty
  | notFound
  | serverError
  | page (contentType : String) (body : List Nat)
  deriving DecidableEq, Repr

/-- Go getCompost (disk variant), for a request on namespace `dir`, path
variable `file` and raw query string `query`.  `hl code lexer title`
models the pygmentize subprocess (error = non-zero exit), `mdr` the
markdown renderer.  Flow: readPaste; on error a 404 (pasteNotFound) or
500 response; otherwise render — markdown when `dir = "md"`, else
highlight when the query is non-empty falling back to the raw paste as
plain text when `hl` fails, else the raw paste as plain text — write the
body, and finally, when `dir = "temp"`, deletePaste (result ignored). -/
def getCompost (hl : List Nat → String → String → Except Unit (List Nat))
    (mdr : List Nat → List Nat) (dir file query : String) (st : Store) :
    DResp × Store :=
  if file = "" then (.empty, st)
  else
    match readPaste st file with
    | .error e => (if e = .notFound then .notFound else .serverError, st)
    | .ok paste =>
      let rendered : String × List Nat :=
        if dir = "md" then (htmlCT, mdr paste)
        else if query ≠ "" then
          match hl paste query file with
          | .ok body => (htmlCT, body)
          | .error _ => (plainCT, paste)
        else (plainCT, paste)
      let st2 := if dir = "temp" then (deletePaste st file).2 else st
      (.page rendered.1 rendered.2, st2)

/-! ### IPFS variant: staging filesystem

The IPFS writePaste stages content under `pastes/<id>` before invoking
`ipfs add`.  The local filesystem is modelled as a set of directories
and a set of files; `os.Remove` removes a file, or a directory only when
it is empty, and fails otherwise (Go: "Remove removes the named file or
(empty) directory"). -/

structure Fs where
  dirs : List String
  files : List (String × List Nat)
  deriving Repr

/-- Existence of a file at path `p`. -/
def fsHasFile (fs : Fs) (p : String) : Bool :=
  (fs.files.find? (fun q => q.1 == p)).isSome

/-- Whether `pre` is a leading segment of `s` (on chars). -/
def strHasPre (pre s : String) : Bool :=
  s.data.take pre.data.length == pre.data

/-- Whether directory `p` still contains a file or subdirectory. -/
def dirNonEmpty (fs : Fs) (p : String) : Bool :=
  fs.files.any (fun q => strHasPre (p ++ "/") q.1)
    || fs.dirs.any (fun d => strHasPre (p ++ "/") d)

/-- Go os.Remove: removes a file, or an empty directory; `none` models a
returned error (non-empty directory, or path absent). -/
def fsRemove (fs : Fs) (p : String) : Option Fs :=
  if fsHasFile fs p then
    some { fs with files := fs.files.filter (fun q => ¬ q.1 = p) }
  else if fs.dirs.contains p then
    if dirNonEmpty fs p then none
    else some { fs with dirs := fs.dirs.filter (fun d => ¬ d = p) }
  else none

/-- Go writePaste (IPFS variant).  Size checks first, before any
filesystem action.  Then content is staged: for a named upload, a
directory `pastes/<id>` is created and the file written at
`pastes/<id>/<name>`; for an unnamed upload `path.Join` collapses the
empty name so the staging file IS `pastes/<id>` itself.  `ipfs add`
(recursive for named uploads) is modelled abstractly by `addHash`: the
content hash parsed from the stdout of a successful invocation, or `none` for
a subprocess failure.  The key is `hash/name` (named) or `hash`
(unnamed).  Finally `err = os.Remove(temp_dir)` — the named return
value, so a removal failure is the returned error of the function (the caller
then discards the key). -/
def ipfsWritePaste (addHash : Option String) (id : String) (fs : Fs)
    (name : String) (data : List Nat) : Except PasteErr String × Fs :=
  if data.length > maxPasteSize then (.error .tooLarge, fs)
  else if data.length < minPasteSize then (.error .tooSmall, fs)
  else
    let tempDir := "pastes/" ++ id
    let fs1 := if name ≠ "" then { fs with dirs := tempDir :: fs.dirs } else fs
    let tempFile := if name = "" then tempDir else tempDir ++ "/" ++ name
    let fs2 := { fs1 with files := (tempFile, data) :: fs1.files }
    match addHash with
    | none => (.error .subFailed, fs2)
    | some h =>
      let key := if name = "" then h else h ++ "/" ++ name
      match fsRemove fs2 tempDir with
      | some fs3 => (.ok key, fs3)
      | none => (.error .removeFailed, fs2)

/-- Go readPaste (IPFS variant): `ipfs cat key`, modelled by `cat`
(`none` = any non-zero exit); every failure becomes `pasteNotFound`. -/
def ipfsReadPaste (cat : String → Option (List Nat)) (key : String) :
    Except PasteErr (List Nat) :=
  match cat key with
  | none => .error .notFound
  | some v => .ok v

/-- Response of the read handler in the IPFS variant.  `errBody` is the
`fmt.Fprintf(w, "error: %s", pygmentsError...)` branch: a descriptive
error body written on highlight failure (Content-Type already set to
HTML, status 200). -/
inductive IResp where
  | empty
  | notFound
  | serverError
  | errBody
  | page (contentType : Option String) (body : List Nat)
  deriving DecidableEq, Repr

/-- Go handler.read (IPFS variant): key is `hash/file` or `hash`;
readPaste; on error 404/500; with a non-empty query the Content-Type is
set to HTML and the paste rendered as markdown (query `"md"`) or
highlighted — a highlight failure writes the pygmentsError body and
returns; with no query the raw paste is written with no Content-Type
set. -/
def ipfsRead (cat : String → Option (List Nat))
    (hl : List Nat → String → String → Except Unit (List Nat))
    (mdr : List Nat → List Nat) (hash file query : String) : IResp :=
  if hash = "" then .empty
  else
    let key := if file ≠ "" then hash ++ "/" ++ file else hash
    match ipfsReadPaste cat key with
    | .error e => if e = .notFound then .notFound else .serverError
    | .ok paste =>
      if query ≠ "" then
        if query = "md" then .page (some htmlCT) (mdr paste)
        else
          match hl paste query key with
          | .ok body => .page (some htmlCT) body
          | .error _ => .errBody
      else .page none paste

/-! ### IPFS variant: the User-Agent slice of the usage handler -/

/-- Go req.Header.Get: the header value, or the empty string when the
header is absent. -/
def headerGet (v : Option String) : String :=
  v.getD ""

/-- The expression `agent[:4]` of handler.usage: a Go string slice whose
bounds check requires the string to hold at least 4 bytes; `none` models
the out-of-range panic. -/
def agentSlice (agent : String) : Option (List Char) :=
  if agent.data.length < 4 then none else some (agent.data.take 4)

/-- The branch condition `agent[:4] != "curl"` of handler.usage; `none`
models the panic of the slice. -/
def usagePicksHtml (agent : String) : Option Bool :=
  (agentSlice agent).map (fun s => decide (s ≠ "curl".data))

/-- Sequential execution of N disk-variant writes against one namespace
store, threading the store; each write runs with its own random stream
(the i-th element of `rs`), all with the same fuel.  Succeeds only when
every write returns a key. -/
def writeSeq (fuel : Nat) :
    List (Nat → Nat) → Store → List (String × List Nat) →
    Option (List String × Store)
  | _, st, [] => some ([], st)
  | [], _, _ :: _ => none
  | r :: rs2, st, (name, data) :: rest =>
    match writePaste r fuel st name data with
    | some (.ok k, st2) =>
      match writeSeq fuel rs2 st2 rest with
      | some (ks, st3) => some (k :: ks, st3)
      | none => none
    | _ => none

/-! ## Basic lemmas about the store model -/

theorem lookupStore_cons (p : String × List Nat) (st : Store) (k : String) :
    lookupStore (p :: st) k = if p.1 = k then some p.2 else lookupStore st k := by
  by_cases h : p.1 = k
  · simp [lookupStore, List.find?_cons_of_pos, h]
  · simp [lookupStore, List.find?_cons_of_neg, h]

theorem hasKey_cons (p : String × List Nat) (st : Store) (k : String) :
    hasKey (p :: st) k = (decide (p.1 = k) || hasKey st k) := by
  by_cases h : p.1 = k
  · simp [hasKey, List.find?_cons_of_pos, h]
  · simp [hasKey, List.find?_cons_of_neg, h]

theorem hasKey_eq_isSome (st : Store) (k : String) :
    hasKey st k = (lookupStore st k).isSome := by
  unfold hasKey lookupStore
  cases st.find? (fun p => p.1 == k) <;> simp

theorem lookupStore_writeStore_self (st : Store) (k : String) (v : List Nat) :
    lookupStore (writeStore st k v) k = some v := by
  simp [writeStore, lookupStore_cons]

theorem lookupStore_writeStore_ne (st : Store) (k : String) (v : List Nat)
    (k' : String) (h : ¬ k = k') :
    lookupStore (writeStore st k v) k' = lookupStore st k' := by
  simp [writeStore, lookupStore_cons, h]

theorem hasKey_writeStore (st : Store) (k : String) (v : List Nat) (k' : String) :
    hasKey (writeStore st k v) k' = (decide (k = k') || hasKey st k') := by
  simp [writeStore, hasKey_cons]

theorem lookupStore_eraseStore_self (st : Store) (k : String) :
    lookupStore (eraseStore st k) k = none := by
  induction st with
  | nil => rfl
  | cons p rest ih =>
    unfold eraseStore at *
    by_cases h : p.1 = k
    · simpa [List.filter, h] using ih
    · simpa [List.filter, h, lookupStore_cons] using ih

/-! ## Lemmas about key generation and writePaste (disk variant) -/

theorem findFreeKey_some (r : Nat → Nat) (ext : String) (st : Store) :
    ∀ fuel n k, findFreeKey r ext st fuel n = some k →
      hasKey st k = false ∧ ∃ m, k = newIDAt r m ++ ext := by
  intro fuel
  induction fuel with
  | zero => intro n k h; simp [findFreeKey] at h
  | succ f ih =>
    intro n k h
    simp only [findFreeKey] at h
    by_cases hc : hasKey st (newIDAt r n ++ ext) = true
    · rw [if_pos hc] at h
      exact ih (n + 1) k h
    · rw [if_neg hc] at h
      cases h
      exact ⟨by simpa using hc, n, rfl⟩

theorem writePaste_ok (r : Nat → Nat) (fuel : Nat) (st : Store) (name : String)
    (data : List Nat) (k : String) (st2 : Store)
    (h : writePaste r fuel st name data = some (.ok k, st2)) :
    hasKey st k = false ∧ st2 = writeStore st k data ∧
      minPasteSize ≤ data.length ∧ data.length ≤ maxPasteSize ∧
      ∃ m, k = newIDAt r m ++ extSuffix name := by
  unfold writePaste at h
  by_cases h1 : data.length > maxPasteSize
  · rw [if_pos h1] at h; simp at h
  rw [if_neg h1] at h
  by_cases h2 : data.length < minPasteSize
  · rw [if_pos h2] at h; simp at h
  rw [if_neg h2] at h
  cases hf : findFreeKey r (extSuffix name) st fuel 0 with
  | none => rw [hf] at h; simp at h
  | some k0 =>
    rw [hf] at h
    have hk : k0 = k ∧ writeStore st k0 data = st2 := by
      simpa using h
    obtain ⟨rfl, rfl⟩ := hk
    obtain ⟨hfree, m, hm⟩ := findFreeKey_some r (extSuffix name) st fuel 0 k0 hf
    exact ⟨hfree, rfl, Nat.le_of_not_lt h2, Nat.le_of_not_lt h1, m, hm⟩

/-! ## Claim theorems -/

/-- C1.  Disk variant round-trip: for every byte payload P with
16 ≤ len P ≤ maxPasteSize, a writePaste that returns a key k leaves the
store such that readPaste on the same store with key k returns exactly
P. -/
theorem c1_disk_write_read_roundtrip (r : Nat → Nat) (fuel : Nat) (st : Store)
    (name : String) (data : List Nat) (k : String) (st2 : Store)
    (_hmin : minPasteSize ≤ data.length) (_hmax : data.length ≤ maxPasteSize)
    (h : writePaste r fuel st name data = some (.ok k, st2)) :
    readPaste st2 k = .ok data := by
  obtain ⟨-, rfl, -⟩ := writePaste_ok r fuel st name data k st2 h
  simp [readPaste, lookupStore_writeStore_self]

/-- Witness for C1 at a concrete input: a 16-byte payload written to the
empty store under filename "a.txt" gets key "AAAA.txt" and reads back
exactly. -/
theorem c1_disk_write_read_roundtrip_witness :
    minPasteSize ≤ (List.replicate 16 7).length ∧
    (List.replicate 16 7).length ≤ maxPasteSize ∧
    writePaste (fun _ => 0) 1 [] "a.txt" (List.replicate 16 7)
      = some (.ok "AAAA.txt", [("AAAA.txt", List.replicate 16 7)]) ∧
    readPaste [("AAAA.txt", List.replicate 16 7)] "AAAA.txt"
      = .ok (List.replicate 16 7) := by
  have hw : writePaste (fun _ => 0) 1 [] "a.txt" (List.replicate 16 7)
      = some (.ok "AAAA.txt", [("AAAA.txt", List.replicate 16 7)]) := by rfl
  exact ⟨by decide, by decide, hw,
    c1_disk_write_read_roundtrip (fun _ => 0) 1 [] "a.txt" (List.replicate 16 7)
      "AAAA.txt" [("AAAA.txt", List.replicate 16 7)] (by decide) (by decide) hw⟩

/-- C2.  Size validation in both variants: an over-maximum payload is
rejected with pasteTooLarge, an under-minimum payload with
pasteTooSmall, and in either failure case the store (disk variant) /
staging filesystem (IPFS variant) is unchanged and no key is
returned. -/
theorem c2_size_validation (r : Nat → Nat) (fuel : Nat) (st : Store)
    (addHash : Option String) (id : String) (fs : Fs) (name : String)
    (data : List Nat) :
    (data.length > maxPasteSize →
      writePaste r fuel st name data = some (.error .tooLarge, st) ∧
      ipfsWritePaste addHash id fs name data = (.error .tooLarge, fs)) ∧
    (data.length < minPasteSize →
      writePaste r fuel st name data = some (.error .tooSmall, st) ∧
      ipfsWritePaste addHash id fs name data = (.error .tooSmall, fs)) := by
  constructor
  · intro h
    constructor
    · unfold writePaste; rw [if_pos h]
    · unfold ipfsWritePaste; rw [if_pos h]
  · intro h
    have h1 : ¬ data.length > maxPasteSize := by
      simp only [minPasteSize] at h
      simp only [maxPasteSize]
      omega
    constructor
    · unfold writePaste; rw [if_neg h1, if_pos h]
    · unfold ipfsWritePaste; rw [if_neg h1, if_pos h]

/-- Witness for C2: a (2^30 + 1)-byte payload is rejected as too large,
a 15-byte payload as too small, in both variants, with no state
change. -/
theorem c2_size_validation_witness :
    ((List.replicate 1073741825 0).length > maxPasteSize ∧
      writePaste (fun _ => 0) 1 [] "" (List.replicate 1073741825 0)
        = some (.error .tooLarge, []) ∧
      ipfsWritePaste (some "Qm") "AAAA" ⟨[], []⟩ "" (List.replicate 1073741825 0)
        = (.error .tooLarge, ⟨[], []⟩)) ∧
    ((List.replicate 15 0).length < minPasteSize ∧
      writePaste (fun _ => 0) 1 [] "" (List.replicate 15 0)
        = some (.error .tooSmall, []) ∧
      ipfsWritePaste (some "Qm") "AAAA" ⟨[], []⟩ "" (List.replicate 15 0)
        = (.error .tooSmall, ⟨[], []⟩)) := by
  have hbig : (List.replicate 1073741825 (0 : Nat)).length > maxPasteSize := by
    rw [List.length_replicate]; norm_num [maxPasteSize]
  have hsmall : (List.replicate 15 (0 : Nat)).length < minPasteSize := by
    rw [List.length_replicate]; norm_num [minPasteSize]
  refine ⟨⟨hbig, ?_, ?_⟩, ⟨hsmall, ?_, ?_⟩⟩
  · exact ((c2_size_validation (fun _ => 0) 1 [] (some "Qm") "AAAA" ⟨[], []⟩ ""
      (List.replicate 1073741825 0)).1 hbig).1
  · exact ((c2_size_validation (fun _ => 0) 1 [] (some "Qm") "AAAA" ⟨[], []⟩ ""
      (List.replicate 1073741825 0)).1 hbig).2
  · exact ((c2_size_validation (fun _ => 0) 1 [] (some "Qm") "AAAA" ⟨[], []⟩ ""
      (List.replicate 15 0)).2 hsmall).1
  · exact ((c2_size_validation (fun _ => 0) 1 [] (some "Qm") "AAAA" ⟨[], []⟩ ""
      (List.replicate 15 0)).2 hsmall).2

/-- C3.  Key uniqueness (disk variant, sequential execution): a
successful writePaste only writes to a key the store reported absent
immediately before the write (and only adds that binding); hence N
sequential in-bounds writes to one namespace yield N pairwise-distinct
keys and never change the binding of any pre-existing key. -/
theorem c3_key_uniqueness :
    (∀ r fuel st name data k st2,
      writePaste r fuel st name data = some (.ok k, st2) →
      hasKey st k = false ∧ st2 = writeStore st k data) ∧
    (∀ fuel pastes rs st ks st3,
      writeSeq fuel rs st pastes = some (ks, st3) →
      ks.Nodup ∧
        ∀ k, hasKey st k = true →
          k ∉ ks ∧ lookupStore st3 k = lookupStore st k) := by
  constructor
  · intro r fuel st name data k st2 h
    obtain ⟨hfree, h2, -⟩ := writePaste_ok r fuel st name data k st2 h
    exact ⟨hfree, h2⟩
  · intro fuel pastes
    induction pastes with
    | nil =>
      intro rs st ks st3 h
      cases rs with
      | nil =>
        simp only [writeSeq] at h
        cases h
        exact ⟨List.nodup_nil, fun k hk => ⟨List.not_mem_nil k, rfl⟩⟩
      | cons r rs2 =>
        simp only [writeSeq] at h
        cases h
        exact ⟨List.nodup_nil, fun k hk => ⟨List.not_mem_nil k, rfl⟩⟩
    | cons p rest ih =>
      intro rs st ks st3 h
      cases rs with
      | nil => simp [writeSeq] at h
      | cons r rs2 =>
        obtain ⟨name, data⟩ := p
        simp only [writeSeq] at h
        cases hw : writePaste r fuel st name data with
        | none => rw [hw] at h; simp at h
        | some res =>
          obtain ⟨e, st2⟩ := res
          rw [hw] at h
          cases e with
          | error e0 => simp at h
          | ok k1 =>
            dsimp only at h
            cases hs : writeSeq fuel rs2 st2 rest with
            | none => rw [hs] at h; simp at h
            | some res2 =>
              obtain ⟨ks2, st3'⟩ := res2
              rw [hs] at h
              simp only [Option.some.injEq, Prod.mk.injEq] at h
              obtain ⟨h1, h2⟩ := h
              subst h2
              obtain ⟨hfree, rfl, -⟩ :=
                writePaste_ok r fuel st name data k1 st2 hw
              obtain ⟨hnd, hpres⟩ := ih rs2 (writeStore st k1 data) ks2 _ hs
              have hk1 : hasKey (writeStore st k1 data) k1 = true := by
                rw [hasKey_writeStore]; simp
              obtain ⟨hk1notin, -⟩ := hpres k1 hk1
              subst h1
              refine ⟨List.nodup_cons.mpr ⟨hk1notin, hnd⟩, ?_⟩
              intro k hk
              have hne : ¬ k1 = k := by
                intro he; rw [he] at hfree; rw [hfree] at hk; cases hk
              have hk2 : hasKey (writeStore st k1 data) k = true := by
                rw [hasKey_writeStore, hk]; simp
              obtain ⟨hnotin, hlook⟩ := hpres k hk2
              refine ⟨?_, ?_⟩
              · intro hmem
                rcases List.mem_cons.mp hmem with h' | h'
                · exact hne h'.symm
                · exact hnotin h'
              · rw [hlook, lookupStore_writeStore_ne st k1 data k hne]

/-- Witness for C3 at a concrete run: two sequential 16-byte writes to
the empty store produce the distinct keys "AAAA" and "BBBB", and no key
of the (empty) initial store is disturbed. -/
theorem c3_key_uniqueness_witness :
    writeSeq 1 [fun _ => 0, fun _ => 1] []
        [("", List.replicate 16 7), ("", List.replicate 16 7)]
      = some (["AAAA", "BBBB"],
          [("BBBB", List.replicate 16 7), ("AAAA", List.replicate 16 7)]) ∧
    ["AAAA", "BBBB"].Nodup ∧
    (∀ k, hasKey ([] : Store) k = true →
      k ∉ ["AAAA", "BBBB"] ∧
      lookupStore [("BBBB", List.replicate 16 7), ("AAAA", List.replicate 16 7)] k
        = lookupStore ([] : Store) k) := by
  have hw : writeSeq 1 [fun _ => 0, fun _ => 1] []
      [("", List.replicate 16 7), ("", List.replicate 16 7)]
      = some (["AAAA", "BBBB"],
          [("BBBB", List.replicate 16 7), ("AAAA", List.replicate 16 7)]) := by rfl
  have h := c3_key_uniqueness.2 1
    [("", List.replicate 16 7), ("", List.replicate 16 7)]
    [fun _ => 0, fun _ => 1] [] ["AAAA", "BBBB"]
    [("BBBB", List.replicate 16 7), ("AAAA", List.replicate 16 7)] hw
  exact ⟨hw, h.1, h.2⟩

/-- C4.  Single-use (temp) semantics: a first read of a stored temp
paste serves the stored content and erases it (deletePaste reads to
confirm existence before erasing), so an immediately following second
read of the same key — with any query string and any render helpers —
yields NotFound. -/
theorem c4_temp_single_use (hl hl2 : List Nat → String → String → Except Unit (List Nat))
    (mdr mdr2 : List Nat → List Nat) (key : String) (v : List Nat) (st : Store)
    (q2 : String) (hk : ¬ key = "") (hv : lookupStore st key = some v) :
    getCompost hl mdr "temp" key "" st = (.page plainCT v, eraseStore st key) ∧
    getCompost hl2 mdr2 "temp" key q2 (eraseStore st key)
      = (.notFound, eraseStore st key) := by
  constructor
  · unfold getCompost
    rw [if_neg hk]
    simp [readPaste, hv, deletePaste]
  · unfold getCompost
    rw [if_neg hk]
    simp [readPaste, lookupStore_eraseStore_self]

/-- Witness for C4: a concrete store holding key "kk" with a 3-byte
value serves the value once and then 404s. -/
theorem c4_temp_single_use_witness :
    getCompost (fun _ _ _ => .error ()) (fun x => x) "temp" "kk" ""
        [("kk", [1, 2, 3])]
      = (.page plainCT [1, 2, 3], eraseStore [("kk", [1, 2, 3])] "kk") ∧
    getCompost (fun _ _ _ => .error ()) (fun x => x) "temp" "kk" "py"
        (eraseStore [("kk", [1, 2, 3])] "kk")
      = (.notFound, eraseStore [("kk", [1, 2, 3])] "kk") :=
  c4_temp_single_use (fun _ _ _ => .error ()) (fun _ _ _ => .error ())
    (fun x => x) (fun x => x) "kk" [1, 2, 3] [("kk", [1, 2, 3])] "py"
    (by decide) (by rfl)

/-- C6.  NotFound is the sole read-failure classification: the disk
variant readPaste and the IPFS variant readPaste can only fail with
pasteNotFound, and do fail that way on an unknown key (disk: key absent
from the store; IPFS: subprocess failure). -/
theorem c6_notfound_sole_read_error :
    (∀ st key e, readPaste st key = .error e → e = .notFound) ∧
    (∀ cat key e, ipfsReadPaste cat key = .error e → e = .notFound) ∧
    (∀ st key, lookupStore st key = none → readPaste st key = .error .notFound) ∧
    (∀ (cat : String → Option (List Nat)) key, cat key = none →
      ipfsReadPaste cat key = .error .notFound) := by
  refine ⟨?_, ?_, ?_, ?_⟩
  · intro st key e h
    unfold readPaste at h
    cases hv : lookupStore st key with
    | none => rw [hv] at h; cases h; rfl
    | some v => rw [hv] at h; cases h
  · intro cat key e h
    unfold ipfsReadPaste at h
    cases hv : cat key with
    | none => rw [hv] at h; cases h; rfl
    | some v => rw [hv] at h; cases h
  · intro st key h
    unfold readPaste
    rw [h]
  · intro cat key h
    unfold ipfsReadPaste
    rw [h]

/-- Witness for C6: reading the key "zz" from the empty store and from
an always-failing ipfs cat both yield pasteNotFound. -/
theorem c6_notfound_sole_read_error_witness :
    readPaste [] "zz" = .error .notFound ∧
    ipfsReadPaste (fun _ => none) "zz" = .error .notFound ∧
    PasteErr.notFound = PasteErr.notFound :=
  ⟨c6_notfound_sole_read_error.2.2.1 [] "zz" rfl,
   c6_notfound_sole_read_error.2.2.2 (fun _ => none) "zz" rfl,
   c6_notfound_sole_read_error.1 [] "zz" .notFound
     (c6_notfound_sole_read_error.2.2.1 [] "zz" rfl)⟩

/-- C9.  The usage handler of the IPFS variant slices the first four bytes of
the User-Agent value with no length check: with the header absent
(Header.Get yields the empty string) or any value shorter than 4, the
bounds check of the slice fails and the handler panics (modelled as `none`). -/
theorem c9_agent_slice_panics :
    usagePicksHtml (headerGet none) = none ∧
    ∀ agent : String, agent.length < 4 → usagePicksHtml agent = none := by
  constructor
  · rfl
  · intro agent h
    unfold usagePicksHtml agentSlice
    rw [if_pos (show agent.data.length < 4 from h)]
    rfl

/-- Witness for C9: the 2-byte agent "ab" trips the bounds check. -/
theorem c9_agent_slice_panics_witness :
    ("ab" : String).length < 4 ∧ usagePicksHtml "ab" = none :=
  ⟨by decide, c9_agent_slice_panics.2 "ab" (by decide)⟩

/-- C10.  The extension regexp does not exclude path separators: a
successful disk-variant write with filename "a.b/c" always returns a key
containing the character '/' (the suffix matched is ".b/c"). -/
theorem c10_key_can_contain_slash (r : Nat → Nat) (fuel : Nat) (st : Store)
    (data : List Nat) (k : String) (st2 : Store)
    (h : writePaste r fuel st "a.b/c" data = some (.ok k, st2)) :
    '/' ∈ k.data := by
  obtain ⟨-, -, -, -, m, rfl⟩ := writePaste_ok r fuel st "a.b/c" data k st2 h
  rw [String.data_append]
  refine List.mem_append.mpr (Or.inr ?_)
  have he : extSuffix "a.b/c" = ".b/c" := rfl
  rw [he]
  decide

/-- Witness for C10: writing a 16-byte payload with filename "a.b/c"
into the empty store yields key "AAAA.b/c", which contains '/'. -/
theorem c10_key_can_contain_slash_witness :
    writePaste (fun _ => 0) 1 [] "a.b/c" (List.replicate 16 7)
      = some (.ok "AAAA.b/c", [("AAAA.b/c", List.replicate 16 7)]) ∧
    '/' ∈ ("AAAA.b/c" : String).data := by
  have hw : writePaste (fun _ => 0) 1 [] "a.b/c" (List.replicate 16 7)
      = some (.ok "AAAA.b/c", [("AAAA.b/c", List.replicate 16 7)]) := by rfl
  exact ⟨hw, c10_key_can_contain_slash (fun _ => 0) 1 [] (List.replicate 16 7)
    "AAAA.b/c" [("AAAA.b/c", List.replicate 16 7)] hw⟩

/-! ## Lemmas about the generated id characters -/

theorem charAt_mem (x : Nat) : charAt x ∈ urlCharset.data := by
  have h62 : urlCharset.data.length = 62 := rfl
  have h : x % 62 < urlCharset.data.length := by
    rw [h62]; exact Nat.mod_lt _ (by norm_num)
  unfold charAt
  rw [List.getD_eq_getElem _ _ h]
  exact List.getElem_mem h

theorem newIDAt_length (r : Nat → Nat) (n : Nat) : (newIDAt r n).length = 4 := rfl

theorem newIDAt_chars (r : Nat → Nat) (n : Nat) :
    ∀ c ∈ (newIDAt r n).data, c ∈ urlCharset.data := by
  intro c hc
  have hc2 : c ∈ (List.range urlLength).map
      (fun i => charAt (r (urlLength * n + i))) := hc
  simp only [List.mem_map] at hc2
  obtain ⟨i, -, rfl⟩ := hc2
  exact charAt_mem _

/-- C7.  Key shape (disk variant): every key a successful writePaste
returns is a 4-character id drawn from the 62-character alphanumeric
alphabet, concatenated with the regexp match `(\.[^.]+)$` of the
filename (empty when there is no match). -/
theorem c7_key_shape (r : Nat → Nat) (fuel : Nat) (st : Store) (name : String)
    (data : List Nat) (k : String) (st2 : Store)
    (h : writePaste r fuel st name data = some (.ok k, st2)) :
    ∃ idp : String, k = idp ++ extSuffix name ∧ idp.length = 4 ∧
      ∀ c ∈ idp.data, c ∈ urlCharset.data := by
  obtain ⟨-, -, -, -, m, rfl⟩ := writePaste_ok r fuel st name data k st2 h
  exact ⟨newIDAt r m, rfl, newIDAt_length r m, newIDAt_chars r m⟩

/-- Witness for C7: filename "report.final.csv" yields key "AAAA.csv"
(id "AAAA" plus last dot-delimited suffix ".csv"). -/
theorem c7_key_shape_witness :
    extSuffix "report.final.csv" = ".csv" ∧
    writePaste (fun _ => 0) 1 [] "report.final.csv" (List.replicate 16 7)
      = some (.ok "AAAA.csv", [("AAAA.csv", List.replicate 16 7)]) ∧
    (∃ idp : String, "AAAA.csv" = idp ++ extSuffix "report.final.csv" ∧
      idp.length = 4 ∧ ∀ c ∈ idp.data, c ∈ urlCharset.data) := by
  have hw : writePaste (fun _ => 0) 1 [] "report.final.csv" (List.replicate 16 7)
      = some (.ok "AAAA.csv", [("AAAA.csv", List.replicate 16 7)]) := by rfl
  exact ⟨rfl, hw, c7_key_shape (fun _ => 0) 1 [] "report.final.csv"
    (List.replicate 16 7) "AAAA.csv" [("AAAA.csv", List.replicate 16 7)] hw⟩

/-- C5 counterexample.  In the read handler of the IPFS variant, a highlight
failure does NOT fall back to the raw content: for a stored 16-byte
paste read with lexer query "py" and a failing highlighter, the handler
writes the pygmentsError body — not the raw bytes as plain text. -/
theorem c5_highlight_fallback_counterexample :
    ipfsRead (fun _ => some (List.replicate 16 7)) (fun _ _ _ => .error ())
        (fun x => x) "h" "" "py" = .errBody ∧
    IResp.errBody ≠ .page none (List.replicate 16 7) ∧
    IResp.errBody ≠ .page (some plainCT) (List.replicate 16 7) :=
  ⟨rfl, by decide, by decide⟩

/-- C5 (amended).  Highlighting failure handling differs by variant: in
the getCompost of the disk variant a highlighter failure falls back to the
original raw content served as plain text (never an error body, the
failure is only logged); in the read handler of the IPFS variant a
highlighter failure instead produces the descriptive pygmentsError
body.  With no query string neither handler invokes the highlighter. -/
theorem c5_highlight_fallback_amended :
    (∀ hl mdr dir file query st paste,
      ¬ dir = "md" → ¬ query = "" → ¬ file = "" →
      lookupStore st file = some paste →
      hl paste query file = .error () →
      (getCompost hl mdr dir file query st).1 = .page plainCT paste) ∧
    (∀ cat hl mdr hash file query paste,
      ¬ hash = "" → ¬ query = "" → ¬ query = "md" →
      cat (if file ≠ "" then hash ++ "/" ++ file else hash) = some paste →
      hl paste query (if file ≠ "" then hash ++ "/" ++ file else hash) = .error () →
      ipfsRead cat hl mdr hash file query = .errBody) ∧
    (∀ hl hl2 mdr dir file st,
      getCompost hl mdr dir file "" st = getCompost hl2 mdr dir file "" st) ∧
    (∀ cat hl hl2 mdr hash file,
      ipfsRead cat hl mdr hash file "" = ipfsRead cat hl2 mdr hash file "") := by
  refine ⟨?_, ?_, ?_, ?_⟩
  · intro hl mdr dir file query st paste hmd hq hf hv hhl
    unfold getCompost
    rw [if_neg hf]
    simp only [readPaste, hv]
    simp [hmd, hq, hhl]
  · intro cat hl mdr hash file query paste hhash hq hqmd hcat hhl
    unfold ipfsRead
    rw [if_neg hhash]
    simp only [ne_eq, ite_not] at hcat hhl
    simp only [ipfsReadPaste, ne_eq, ite_not, hcat]
    simp [hq, hqmd, hhl]
  · intro hl hl2 mdr dir file st
    unfold getCompost
    by_cases hf : file = ""
    · rw [if_pos hf, if_pos hf]
    · rw [if_neg hf, if_neg hf]
      cases readPaste st file <;> simp
  · intro cat hl hl2 mdr hash file
    unfold ipfsRead
    by_cases hh : hash = ""
    · rw [if_pos hh, if_pos hh]
    · rw [if_neg hh, if_neg hh]
      cases ipfsReadPaste cat (if file ≠ "" then hash ++ "/" ++ file else hash) <;> simp

/-- Witness for C5 amended, at concrete inputs: the disk variant serves
the raw 3-byte paste as plain text when the highlighter fails, and the
IPFS variant emits the pygmentsError body under the same conditions. -/
theorem c5_highlight_fallback_amended_witness :
    lookupStore [("kk", [1, 2, 3])] "kk" = some [1, 2, 3] ∧
    (getCompost (fun _ _ _ => .error ()) (fun x => x) "sub" "kk" "py"
        [("kk", [1, 2, 3])]).1 = .page plainCT [1, 2, 3] ∧
    ipfsRead (fun _ => some [1, 2, 3]) (fun _ _ _ => .error ()) (fun x => x)
        "h" "" "py" = .errBody := by
  refine ⟨rfl, ?_, ?_⟩
  · exact c5_highlight_fallback_amended.1 (fun _ _ _ => .error ()) (fun x => x)
      "sub" "kk" "py" [("kk", [1, 2, 3])] [1, 2, 3]
      (by decide) (by decide) (by decide) rfl rfl
  · exact c5_highlight_fallback_amended.2.1 (fun _ => some [1, 2, 3])
      (fun _ _ _ => .error ()) (fun x => x) "h" "" "py" [1, 2, 3]
      (by decide) (by decide) (by decide) rfl rfl

/-! ## Lemmas about the IPFS staging filesystem -/

theorem find?_filter_ne_none (l : List (String × List Nat)) (p : String) :
    (l.filter (fun q => ¬ q.1 = p)).find? (fun q => q.1 == p) = none := by
  rw [List.find?_eq_none]
  intro x hx
  have hmem := List.mem_filter.mp hx
  have hne : ¬ x.1 = p := by simpa using hmem.2
  simpa using hne

theorem strHasPre_append (pre s : String) : strHasPre pre (pre ++ s) = true := by
  unfold strHasPre
  rw [String.data_append, List.take_left]
  simp

theorem append_slash_ne (a b : String) : ¬ (a ++ "/" ++ b = a) := by
  intro h
  have h2 := congrArg String.length h
  rw [String.length_append, String.length_append] at h2
  have h3 : ("/" : String).length = 1 := rfl
  rw [h3] at h2
  omega

/-- Evaluation of the IPFS writePaste on an unnamed in-bounds upload:
the staged temp file is `pastes/<id>` itself, `os.Remove` removes it,
and the key is the bare hash. -/
theorem ipfsWritePaste_unnamed (hash id : String) (fs : Fs) (data : List Nat)
    (h1 : ¬ data.length > maxPasteSize) (h2 : ¬ data.length < minPasteSize) :
    ipfsWritePaste (some hash) id fs "" data
      = (.ok hash,
         ⟨fs.dirs, (("pastes/" ++ id, data) :: fs.files).filter
            (fun q => ¬ q.1 = ("pastes/" ++ id))⟩) := by
  unfold ipfsWritePaste
  rw [if_neg h1, if_neg h2]
  unfold fsRemove fsHasFile
  simp

/-- Evaluation of the IPFS writePaste on a named in-bounds upload when
the staging path is fresh: the staged file `pastes/<id>/<name>` is left
inside the staging directory, so `os.Remove pastes/<id>` fails on the
non-empty directory and writePaste surfaces that error. -/
theorem ipfsWritePaste_named (hash id : String) (fs : Fs) (name : String)
    (data : List Nat)
    (h1 : ¬ data.length > maxPasteSize) (h2 : ¬ data.length < minPasteSize)
    (hname : ¬ name = "")
    (hstale : fsHasFile fs ("pastes/" ++ id) = false) :
    ipfsWritePaste (some hash) id fs name data
      = (.error .removeFailed,
         ⟨("pastes/" ++ id) :: fs.dirs,
          ("pastes/" ++ id ++ "/" ++ name, data) :: fs.files⟩) := by
  unfold ipfsWritePaste
  rw [if_neg h1, if_neg h2]
  have hne : (("pastes/" ++ id ++ "/" ++ name) == ("pastes/" ++ id)) = false := by
    simp only [beq_eq_false_iff_ne, ne_eq]
    exact append_slash_ne ("pastes/" ++ id) name
  have hfind : fs.files.find? (fun q => q.1 == ("pastes/" ++ id)) = none := by
    unfold fsHasFile at hstale
    cases hf : fs.files.find? (fun q => q.1 == ("pastes/" ++ id)) with
    | none => rfl
    | some q => rw [hf] at hstale; cases hstale
  unfold fsRemove fsHasFile dirNonEmpty
  simp [hname, hne, hfind, strHasPre_append ("pastes/" ++ id ++ "/") name]

/-- C8 counterexample.  A named in-bounds upload whose `ipfs add`
succeeds: writePaste returns the os.Remove error (the staging directory
still holds the staged file, so the directory removal fails), not the
key without error, and the staging artifacts are still present in the
returned filesystem state. -/
theorem c8_staging_cleanup_counterexample :
    ipfsWritePaste (some "QmHash") "AAAA" ⟨[], []⟩ "file.txt" (List.replicate 16 7)
      = (.error .removeFailed,
         ⟨["pastes/AAAA"], [("pastes/AAAA/file.txt", List.replicate 16 7)]⟩) := by
  rfl

/-- C8 (amended).  IPFS staging cleanup depends on the upload kind: for
an unnamed upload with a successful add, the staging file is removed and
the key is returned without error; for a named upload the staged file is
never removed from the staging directory, so the directory removal fails
and writePaste surfaces the removal error (with the staging directory
and staged file left behind). -/
theorem c8_staging_cleanup_amended (hash id name : String) (fs : Fs)
    (data : List Nat)
    (hmin : minPasteSize ≤ data.length) (hmax : data.length ≤ maxPasteSize)
    (hstale : fsHasFile fs ("pastes/" ++ id) = false) :
    (name = "" →
      ∃ fs3, ipfsWritePaste (some hash) id fs "" data = (.ok hash, fs3) ∧
        fsHasFile fs3 ("pastes/" ++ id) = false) ∧
    (¬ name = "" →
      (ipfsWritePaste (some hash) id fs name data).1 = .error .removeFailed ∧
      fsHasFile (ipfsWritePaste (some hash) id fs name data).2
        ("pastes/" ++ id ++ "/" ++ name) = true ∧
      ((ipfsWritePaste (some hash) id fs name data).2.dirs.contains
        ("pastes/" ++ id)) = true) := by
  have h1 : ¬ data.length > maxPasteSize := Nat.not_lt.mpr hmax
  have h2 : ¬ data.length < minPasteSize := Nat.not_lt.mpr hmin
  constructor
  · intro _
    refine ⟨_, ipfsWritePaste_unnamed hash id fs data h1 h2, ?_⟩
    unfold fsHasFile
    rw [find?_filter_ne_none]
    rfl
  · intro hname
    rw [ipfsWritePaste_named hash id fs name data h1 h2 hname hstale]
    refine ⟨rfl, ?_, ?_⟩
    · unfold fsHasFile
      rw [List.find?_cons_of_pos]
      · rfl
      · exact beq_self_eq_true _
    · simp

/-- Witness for C8 amended, at concrete inputs: unnamed upload of 16
bytes succeeds with key "Qm" and no staging file left; upload named
"a.txt" fails with the removal error while the staged file remains. -/
theorem c8_staging_cleanup_amended_witness :
    (∃ fs3, ipfsWritePaste (some "Qm") "AAAA" ⟨[], []⟩ "" (List.replicate 16 7)
        = (.ok "Qm", fs3) ∧ fsHasFile fs3 ("pastes/" ++ "AAAA") = false) ∧
    ((ipfsWritePaste (some "Qm") "AAAA" ⟨[], []⟩ "a.txt" (List.replicate 16 7)).1
        = .error .removeFailed ∧
      fsHasFile (ipfsWritePaste (some "Qm") "AAAA" ⟨[], []⟩ "a.txt"
          (List.replicate 16 7)).2 ("pastes/" ++ "AAAA" ++ "/" ++ "a.txt") = true ∧
      ((ipfsWritePaste (some "Qm") "AAAA" ⟨[], []⟩ "a.txt"
          (List.replicate 16 7)).2.dirs.contains ("pastes/" ++ "AAAA")) = true) :=
  ⟨(c8_staging_cleanup_amended "Qm" "AAAA" "" ⟨[], []⟩ (List.replicate 16 7)
      (by decide) (by decide) (by rfl)).1 rfl,
   (c8_staging_cleanup_amended "Qm" "AAAA" "a.txt" ⟨[], []⟩ (List.replicate 16 7)
      (by decide) (by decide) (by rfl)).2 (by decide)⟩

end Upldis
